import Mathlib

/-!
Shallow embedding of the DEGIRO-to-Ghostfolio transaction reconstructor
(`src/index.ts`): the single pass over parsed CSV records that merges
adjacent rows into normalized activities, plus the surrounding run logic
(401 abort, output written only on clean completion).

Modelling conventions:
* JS numbers are modelled as exact rationals (`ℚ`); `parseFloat` of an
  unparseable string (NaN) is modelled as absence (`Option ℚ`), and
  `Math.abs(parseFloat(...))` maps NaN to 0 — every claim below only
  involves parseable amounts.
* `toFixed(3)` is modelled as exact round-half-up to 3 decimals.
* The dayjs parse/format round-trip is modelled as an opaque encoding of
  the record's date and time fields; no claim inspects the timestamp text.
* A thrown TypeError (setting a property of `undefined`, or reading
  `items[0].symbol` of an empty list) is `ProcError.runtimeError`; a 401
  lookup response is `ProcError.unauthorized` (sets `errorExport` + break).
-/

/-- One parsed CSV row, with the 12 columns of the DEGIRO export
(header mapping `csvHeaders` in `src/index.ts`). -/
structure DeGiroRecord where
  date : String
  time : String
  currencyDate : String
  product : String
  isin : String
  description : String
  fx : String
  currency : String
  amount : String
  col1 : String
  col2 : String
  orderId : String
deriving DecidableEq

/-- `GhostfolioOrderType` (`models/ghostfolioOrderType`). -/
inductive GhostfolioOrderType where
  | buy
  | sell
  | dividend
deriving DecidableEq

/-- One entry of `exportFile.activities`. `type` is `Option` because the
source declares `let orderType: GhostfolioOrderType;` and pushes it
unassigned (JS `undefined`) on pure fee records. -/
structure Activity where
  accountId : String
  comment : String
  fee : ℚ
  quantity : ℚ
  type : Option GhostfolioOrderType
  unitPrice : ℚ
  currency : String
  dataSource : String
  date : String
  symbol : String
deriving DecidableEq

/-- The symbol-lookup response for one ISIN: whether the HTTP status was
401, and the `items` list (each item represented by its `symbol` field). -/
structure TickerResult where
  status401 : Bool
  items : List String
deriving DecidableEq

/-- How a record's processing can abort: `unauthorized` models the
`tickerResponse.status === 401` branch (sets `errorExport`, breaks);
`runtimeError` models an uncaught TypeError from dereferencing
`undefined` (empty-list tail access, or `items[0]` of an empty list). -/
inductive ProcError where
  | unauthorized
  | runtimeError
deriving DecidableEq

instance {ε α : Type} [DecidableEq ε] [DecidableEq α] : DecidableEq (Except ε α) := fun x y =>
  match x, y with
  | .ok a, .ok b => if h : a = b then .isTrue (by rw [h]) else .isFalse (by simp [h])
  | .error e, .error f => if h : e = f then .isTrue (by rw [h]) else .isFalse (by simp [h])
  | .ok _, .error _ => .isFalse (by simp)
  | .error _, .ok _ => .isFalse (by simp)

/-- Exact rational multiplication, written via `mkRat` so that closed
terms reduce in the kernel (`Rat.mul` is irreducible). -/
def qMul (a b : ℚ) : ℚ := mkRat (a.num * b.num) (a.den * b.den)

/-- Exact rational addition via `mkRat` (kernel-reducible). -/
def qAdd (a b : ℚ) : ℚ := mkRat (a.num * (b.den : ℤ) + b.num * (a.den : ℤ)) (a.den * b.den)

/-- Exact rational negation via `mkRat` (kernel-reducible). -/
def qNeg (a : ℚ) : ℚ := mkRat (-a.num) a.den

/-- Exact rational division via `Rat.divInt` (kernel-reducible);
division by zero yields 0 (no claim divides by zero). -/
def qDiv (a b : ℚ) : ℚ := Rat.divInt (a.num * (b.den : ℤ)) ((a.den : ℤ) * b.num)

/-- Substring test on character lists: models JS `s.indexOf(pat) > -1`. -/
def listContains (pat : List Char) : List Char → Bool
  | [] => pat.isEmpty
  | c :: cs => pat.isPrefixOf (c :: cs) || listContains pat cs

/-- `description.indexOf(pat) > -1` on strings. -/
def strContains (s pat : String) : Bool := listContains pat.data s.data

/-- `description.toLocaleLowerCase()`, modelled character-wise (ASCII). -/
def toLowerStr (s : String) : String := ⟨s.data.map Char.toLower⟩

/-- Decimal value of a digit run (the regex capture `[\d]+` fed to
`parseFloat`, which on an all-digit string is exact). -/
def digitsVal (cs : List Char) : ℕ := cs.foldl (fun n c => 10 * n + (c.toNat - 48)) 0

/-- Leftmost match of the regex `/(pat([\d]+))/` where `pat` is a literal
verb ending in a space (`"verkoop "` / `"koop "`): at each position, if
`pat` is a prefix and a digit follows, return the value of the maximal
digit run; otherwise slide one character right. -/
def matchVerbNum (pat : List Char) : List Char → Option ℕ
  | [] => none
  | c :: cs =>
    if pat.isPrefixOf (c :: cs) then
      match (c :: cs).drop pat.length with
      | d :: ds => if d.isDigit then some (digitsVal ((d :: ds).takeWhile Char.isDigit))
                   else matchVerbNum pat cs
      | [] => matchVerbNum pat cs
    else matchVerbNum pat cs

/-- The literal in `description.match(/(verkoop ([\d]+))/)`. -/
def verkoopPat : List Char := "verkoop ".data

/-- The literal in `description.match(/(koop ([\d]+))/)`. -/
def koopPat : List Char := "koop ".data

/-- JS `String.replace(',', '.')`: replace the first comma only. -/
def replaceFirstComma : List Char → List Char
  | [] => []
  | c :: cs => if c = ',' then '.' :: cs else c :: replaceFirstComma cs

/-- `parseFloat` on a decimal string: optional sign, digits, optional
fractional part; leading-prefix parse, trailing junk ignored; `none` is
NaN (no digits at all). -/
def parseDecList (cs : List Char) : Option ℚ :=
  let neg : Bool := match cs with
    | '-' :: _ => true
    | _ => false
  let cs1 : List Char := match cs with
    | '-' :: r => r
    | '+' :: r => r
    | _ => cs
  let ip := cs1.takeWhile Char.isDigit
  let cs2 := cs1.dropWhile Char.isDigit
  match cs2 with
  | '.' :: cs3 =>
    let fp := cs3.takeWhile Char.isDigit
    if ip.isEmpty && fp.isEmpty then none
    else
      let mag := qAdd (digitsVal ip : ℚ) (qDiv (digitsVal fp : ℚ) ((10 : ℚ) ^ fp.length))
      some (if neg then qNeg mag else mag)
  | _ =>
    if ip.isEmpty then none
    else some (if neg then qNeg (digitsVal ip : ℚ) else (digitsVal ip : ℚ))

/-- `Math.abs` on an exact rational. -/
def absQ (q : ℚ) : ℚ := if q < 0 then qNeg q else q

/-- `Math.abs(parseFloat(record.amount.replace(',', '.')))`; NaN ↦ 0
(all claims use parseable amounts). -/
def absAmountOf (r : DeGiroRecord) : ℚ :=
  match parseDecList (replaceFirstComma r.amount.data) with
  | some q => absQ q
  | none => 0

/-- Floor of a rational, computed by floor division of numerator by
denominator (the denominator is positive). -/
def floorQ (q : ℚ) : ℤ := Int.fdiv q.num q.den

/-- `parseFloat(x.toFixed(3))`: round half-up to 3 decimal places
(exact-rational model of the IEEE-754 computation). -/
def toFixed3 (q : ℚ) : ℚ := Rat.divInt (floorQ (qAdd (qMul 1000 q) (mkRat 1 2))) 1000

/-- First skip filter (lines 75–81): empty description or one of the
known noise markers. -/
def noiseSkip (d : String) : Bool :=
  d = "" || strContains d "ideal" || strContains d "flatex" ||
    strContains d "cash sweep" || strContains d "withdrawal"

/-- Second skip filter (line 87): no "dividend", no "@", no "/". -/
def irrelevantSkip (d : String) : Bool :=
  !strContains d "dividend" && !strContains d "@" && !strContains d "/"

/-- Opaque model of
`dayjs(date + " " + time + ":00", "DD-MM-YYYY HH:mm").format("YYYY-MM-DDTHH:mm:ssZ")`;
no claim inspects the produced text, only that it is a function of the
record's `date` and `time` fields. -/
def dateStrOf (r : DeGiroRecord) : String := r.date ++ " " ++ r.time ++ ":00"

/-- The object literal pushed by `exportFile.activities.push({...})`. -/
def mkPushed (res : String → TickerResult) (accountId : String) (r : DeGiroRecord)
    (ot : Option GhostfolioOrderType) (ns up fees : ℚ) (marker : String) : Activity :=
  { accountId := accountId
    comment := marker
    fee := fees
    quantity := ns
    type := ot
    unitPrice := up
    currency := ""
    dataSource := "YAHOO"
    date := dateStrOf r
    symbol := ((res r.isin).items).headD "" }

/-- The in-place promotion of the pending fee entry performed by the
`verkoopMatch` / `koopMatch` merge branches. -/
def mergeTail (last : Activity) (ot : GhostfolioOrderType) (sym : String)
    (ns up : ℚ) (currency : String) : Activity :=
  { last with
    type := some ot
    symbol := sym
    quantity := ns
    unitPrice := up
    currency := currency
    comment := "" }

/-- The merge-with-pending-fee check shared by the sell and buy branches:
`exportFile.activities[length - 1].comment === "transactiekosten"`.
`none` means fall through (tail exists, marker differs); on an empty list
the `.comment` read, and with zero lookup candidates the
`tickers.items[0].symbol` read, each throw (`runtimeError`). -/
def tradeCheck (tickers : TickerResult) (r : DeGiroRecord) (acts : List Activity)
    (ot : GhostfolioOrderType) (ns up : ℚ) : Option (Except ProcError (List Activity)) :=
  match acts.getLast? with
  | none => some (.error .runtimeError)
  | some last =>
    if last.comment = "transactiekosten" then
      match tickers.items.head? with
      | none => some (.error .runtimeError)
      | some sym => some (.ok (acts.dropLast ++ [mergeTail last ot sym ns up r.currency]))
    else none

/-- Tail of each iteration: the ISIN check, the `transactiekosten`
regex (fee + marker), and the `activities.push`. An empty ISIN is
`continue`. -/
def finishRecord (res : String → TickerResult) (accountId : String) (acts : List Activity)
    (r : DeGiroRecord) (description : String) (ot : Option GhostfolioOrderType)
    (ns up : ℚ) : Except ProcError (List Activity) :=
  if 0 < r.isin.length then
    if strContains description "transactiekosten" then
      .ok (acts ++ [mkPushed res accountId r ot ns up (absAmountOf r) "transactiekosten"])
    else
      .ok (acts ++ [mkPushed res accountId r ot ns up 0 ""])
  else
    .ok acts

/-- The `koopMatch` stage and everything after it, entered with the
mutable locals (`orderType`, `numberShares`, `unitPrice`) as left by the
earlier stages. On a match the locals are overwritten with the buy data
(`unitPrice` is the raw absolute amount); the merge check may finish the
iteration, else the record falls through to `finishRecord`. -/
def koopStage (res : String → TickerResult) (accountId : String) (acts : List Activity)
    (r : DeGiroRecord) (description : String) (tickers : TickerResult)
    (ot : Option GhostfolioOrderType) (ns up : ℚ) : Except ProcError (List Activity) :=
  match matchVerbNum koopPat description.data with
  | some n =>
    match tradeCheck tickers r acts .buy (n : ℚ) (absAmountOf r) with
    | some result => result
    | none => finishRecord res accountId acts r description (some .buy) (n : ℚ) (absAmountOf r)
  | none => finishRecord res accountId acts r description ot ns up

/-- One iteration of the `for` loop over records (`src/index.ts`,
lines 68–225): skip filters, symbol lookup (`res`), 401 check,
`dividendbelasting` tail amendment, dividend data, `verkoopMatch`,
`koopMatch`, ISIN / `transactiekosten` check, push. -/
def processRecord (res : String → TickerResult) (accountId : String)
    (acts : List Activity) (r : DeGiroRecord) : Except ProcError (List Activity) :=
  let description := toLowerStr r.description
  if noiseSkip description then
    .ok acts
  else if irrelevantSkip description then
    .ok acts
  else
    let tickers := res r.isin
    if tickers.status401 then
      .error .unauthorized
    else if strContains description "dividendbelasting" then
      match acts.getLast? with
      | none => .error .runtimeError
      | some last =>
        .ok (acts.dropLast ++
          [{ last with fee := absAmountOf r, currency := r.currency, comment := "" }])
    else
      let div := strContains description "dividend"
      let ot0 : Option GhostfolioOrderType := if div then some .dividend else none
      let ns0 : ℚ := if div then 1 else 0
      let up0 : ℚ := if div then absAmountOf r else 0
      match matchVerbNum verkoopPat description.data with
      | some n =>
        match tradeCheck tickers r acts .sell (n : ℚ) (toFixed3 (qDiv (absAmountOf r) (n : ℚ))) with
        | some result => result
        | none =>
          koopStage res accountId acts r description tickers (some .sell) (n : ℚ)
            (toFixed3 (qDiv (absAmountOf r) (n : ℚ)))
      | none => koopStage res accountId acts r description tickers ot0 ns0 up0

/-- Outcome of the whole run: `written acts` models clean completion
(the `if (!errorExport)` guard passes and the JSON file is written),
`aborted` models `errorExport = true; break` (no file written),
`crashed` models an uncaught TypeError (no file written). -/
inductive RunResult where
  | written (acts : List Activity)
  | aborted
  | crashed
deriving DecidableEq

/-- The `for` loop over all parsed records plus the final write guard. -/
def processAll (res : String → TickerResult) (accountId : String) :
    List Activity → List DeGiroRecord → RunResult
  | acts, [] => .written acts
  | acts, r :: rs =>
    match processRecord res accountId acts r with
    | .ok acts1 => processAll res accountId acts1 rs
    | .error .unauthorized => .aborted
    | .error .runtimeError => .crashed

/-- A record passes both skip filters and therefore reaches the symbol
lookup: description (lower-cased) non-empty, none of the noise markers,
and at least one of "dividend", "@", "/". -/
def reachesLookup (r : DeGiroRecord) : Bool :=
  !noiseSkip (toLowerStr r.description) && !irrelevantSkip (toLowerStr r.description)

/-! ### Structural lemmas about one step -/

theorem processAll_append (res : String → TickerResult) (acc : String)
    (acts : List Activity) (ps qs : List DeGiroRecord) :
    processAll res acc acts (ps ++ qs) =
      match processAll res acc acts ps with
      | .written acts1 => processAll res acc acts1 qs
      | .aborted => .aborted
      | .crashed => .crashed := by
  induction ps generalizing acts with
  | nil => simp [processAll]
  | cons r rs ih =>
    simp only [List.cons_append, processAll]
    cases h : processRecord res acc acts r with
    | ok acts1 => simp [ih]
    | error e => cases e <;> simp

theorem tradeCheck_shape (tickers : TickerResult) (r : DeGiroRecord) (acts : List Activity)
    (ot : GhostfolioOrderType) (ns up : ℚ) (acts1 : List Activity)
    (h : tradeCheck tickers r acts ot ns up = some (.ok acts1)) :
    ∃ last a, acts.getLast? = some last ∧ acts1 = acts.dropLast ++ [a] ∧
      a.currency = r.currency := by
  unfold tradeCheck at h
  split at h
  · simp at h
  · next last hlast =>
    split at h
    · split at h
      · simp at h
      · next sym hsym =>
        simp only [Option.some.injEq, Except.ok.injEq] at h
        exact ⟨last, _, hlast, h.symm, rfl⟩
    · simp at h

theorem finishRecord_shape (res : String → TickerResult) (acc : String) (acts : List Activity)
    (r : DeGiroRecord) (d : String) (ot : Option GhostfolioOrderType) (ns up : ℚ)
    (acts1 : List Activity) (h : finishRecord res acc acts r d ot ns up = .ok acts1) :
    acts1 = acts ∨ ∃ a, acts1 = acts ++ [a] ∧ a.currency = "" := by
  unfold finishRecord at h
  split at h
  · split at h
    · simp only [Except.ok.injEq] at h
      exact Or.inr ⟨_, h.symm, rfl⟩
    · simp only [Except.ok.injEq] at h
      exact Or.inr ⟨_, h.symm, rfl⟩
  · simp only [Except.ok.injEq] at h
    exact Or.inl h.symm

theorem koopStage_shape (res : String → TickerResult) (acc : String) (acts : List Activity)
    (r : DeGiroRecord) (d : String) (tickers : TickerResult)
    (ot : Option GhostfolioOrderType) (ns up : ℚ) (acts1 : List Activity)
    (h : koopStage res acc acts r d tickers ot ns up = .ok acts1) :
    acts1 = acts ∨ (∃ a, acts1 = acts ++ [a] ∧ a.currency = "") ∨
      (∃ last a, acts.getLast? = some last ∧ acts1 = acts.dropLast ++ [a] ∧
        a.currency = r.currency) := by
  simp only [koopStage] at h
  split at h
  · split at h
    · rename_i result hres
      rw [h] at hres
      exact Or.inr (Or.inr (tradeCheck_shape _ _ _ _ _ _ _ hres))
    · rcases finishRecord_shape _ _ _ _ _ _ _ _ _ h with h1 | h1
      · exact Or.inl h1
      · exact Or.inr (Or.inl h1)
  · rcases finishRecord_shape _ _ _ _ _ _ _ _ _ h with h1 | h1
    · exact Or.inl h1
    · exact Or.inr (Or.inl h1)

theorem processRecord_shape (res : String → TickerResult) (acc : String) (acts : List Activity)
    (r : DeGiroRecord) (acts1 : List Activity) (h : processRecord res acc acts r = .ok acts1) :
    acts1 = acts ∨ (∃ a, acts1 = acts ++ [a] ∧ a.currency = "") ∨
      (∃ last a, acts.getLast? = some last ∧ acts1 = acts.dropLast ++ [a] ∧
        a.currency = r.currency) := by
  simp only [processRecord] at h
  split at h
  · simp only [Except.ok.injEq] at h
    exact Or.inl h.symm
  · split at h
    · simp only [Except.ok.injEq] at h
      exact Or.inl h.symm
    · split at h
      · simp at h
      · split at h
        · split at h
          · simp at h
          · rename_i last hlast
            simp only [Except.ok.injEq] at h
            exact Or.inr (Or.inr ⟨last, _, hlast, h.symm, rfl⟩)
        · split at h
          · split at h
            · rename_i result hres
              rw [h] at hres
              exact Or.inr (Or.inr (tradeCheck_shape _ _ _ _ _ _ _ hres))
            · exact koopStage_shape _ _ _ _ _ _ _ _ _ _ h
          · exact koopStage_shape _ _ _ _ _ _ _ _ _ _ h

/-! ### Concrete fixtures for witnesses and counterexamples -/

/-- A transaction-fee posting row from a DEGIRO export. -/
def rFee : DeGiroRecord :=
  { date := "01-06-2022", time := "09:00", currencyDate := "01-06-2022",
    product := "VANGUARD FTSE AW", isin := "IE00B3RBWM25",
    description := "DEGIRO Transactiekosten en/of kosten van derden",
    fx := "", currency := "EUR", amount := "-2,00", col1 := "", col2 := "", orderId := "o1" }

/-- A buy row: 10 units, total amount 500.00. -/
def rKoop : DeGiroRecord :=
  { rFee with description := "Koop 10 @ 50 EUR", amount := "-500,00" }

/-- A sell row: 10 units, total amount 500.00. -/
def rVerkoop : DeGiroRecord :=
  { rFee with description := "Verkoop 10 @ 50 EUR", amount := "500,00" }

/-- A dividend row. -/
def rDividend : DeGiroRecord :=
  { rFee with description := "Dividend", amount := "12,34" }

/-- A dividend-tax row. -/
def rDivTax : DeGiroRecord :=
  { rFee with description := "Dividendbelasting", amount := "-0,53" }

/-- A resolver that always finds one candidate symbol. -/
def res1 : String → TickerResult := fun _ => ⟨false, ["VWRL.AS"]⟩

/-- A resolver that always returns zero candidates. -/
def res0 : String → TickerResult := fun _ => ⟨false, []⟩

/-- A resolver that always answers 401. -/
def res401 : String → TickerResult := fun _ => ⟨true, []⟩

/-- The dividend activity appended for `rDividend` (12.34 per unit). -/
def aDiv : Activity := mkPushed res1 "acc" rDividend (some .dividend) 1 (mkRat 1234 100) 0 ""

/-- The pending fee entry appended for `rFee` (fee 2.00). -/
def aPend : Activity := mkPushed res1 "acc" rFee none 0 0 2 "transactiekosten"

/-- The pending fee entry appended for `rFee` under the zero-candidate
resolver `res0` (empty symbol). -/
def aPend0 : Activity := mkPushed res0 "acc" rFee none 0 0 2 "transactiekosten"

/-! ### List helpers -/

theorem length_amend {α : Type} (l : List α) (last a : α) (hl : l.getLast? = some last) :
    (l.dropLast ++ [a]).length = l.length := by
  have hne : l ≠ [] := by intro e; subst e; simp at hl
  have hp : 0 < l.length := List.length_pos.mpr hne
  simp [List.length_dropLast]
  omega

/-- C8 — processing one record either appends one activity or amends only
the tail: the list grows by at most one and every entry that is not the
final entry of the new list is unchanged. -/
theorem c8_frame_tail_only (res : String → TickerResult) (acc : String)
    (acts : List Activity) (r : DeGiroRecord) (acts1 : List Activity)
    (h : processRecord res acc acts r = .ok acts1) :
    (acts1.length = acts.length ∨ acts1.length = acts.length + 1) ∧
      ∀ i (h1 : i + 1 < acts1.length) (h2 : i < acts.length),
        acts1.get ⟨i, Nat.lt_of_succ_lt h1⟩ = acts.get ⟨i, h2⟩ := by
  rcases processRecord_shape res acc acts r acts1 h with h1 | ⟨a, h1, _⟩ | ⟨last, a, hl, h1, _⟩
  · subst h1
    exact ⟨Or.inl rfl, fun i h1 h2 => rfl⟩
  · subst h1
    refine ⟨Or.inr (by simp), fun i hi1 hi2 => ?_⟩
    simp only [List.get_eq_getElem]
    exact List.getElem_append_left hi2
  · subst h1
    refine ⟨Or.inl (length_amend acts last a hl), fun i hi1 hi2 => ?_⟩
    have hlen : (acts.dropLast ++ [a]).length = acts.length := length_amend acts last a hl
    have hi3 : i < acts.dropLast.length := by
      simp [List.length_dropLast]
      omega
    simp only [List.get_eq_getElem]
    rw [List.getElem_append_left hi3]
    exact List.getElem_dropLast acts i hi3

/-- Witness for C8 at a concrete input: a fee record processed on a
one-activity list appends one entry and leaves the first entry unchanged. -/
theorem c8_frame_tail_only_witness :
    (([aDiv, aPend] : List Activity).length = [aDiv].length ∨
      ([aDiv, aPend] : List Activity).length = [aDiv].length + 1) ∧
      ∀ i (h1 : i + 1 < ([aDiv, aPend] : List Activity).length) (h2 : i < [aDiv].length),
        ([aDiv, aPend] : List Activity).get ⟨i, Nat.lt_of_succ_lt h1⟩ = [aDiv].get ⟨i, h2⟩ :=
  c8_frame_tail_only res1 "acc" [aDiv] rFee [aDiv, aPend] (by decide)

/-- A fee-posting row with an empty ISIN field. -/
def rNoIsin : DeGiroRecord := { rFee with isin := "" }

/-- C9 — activities are pushed with `currency: ""`; a non-empty currency
can only arise when a later record amends the tail and copies its own
currency field onto it (dividend-tax branch or merge branches). -/
theorem c9_currency_only_by_amendment (res : String → TickerResult) (acc : String)
    (acts : List Activity) (r : DeGiroRecord) (acts1 : List Activity)
    (h : processRecord res acc acts r = .ok acts1) :
    ∀ a ∈ acts1, a.currency ≠ "" → a ∈ acts ∨ a.currency = r.currency := by
  rcases processRecord_shape res acc acts r acts1 h with h1 | ⟨a0, h1, hc⟩ | ⟨last, a0, hl, h1, hc⟩
  · subst h1
    exact fun a ha _ => Or.inl ha
  · subst h1
    intro a ha hne
    rcases List.mem_append.mp ha with h2 | h2
    · exact Or.inl h2
    · rw [List.mem_singleton.mp h2] at hne
      exact absurd hc hne
  · subst h1
    intro a ha hne
    rcases List.mem_append.mp ha with h2 | h2
    · exact Or.inl (List.mem_of_mem_dropLast h2)
    · exact Or.inr (List.mem_singleton.mp h2 ▸ hc)

/-- The dividend activity after its tax record amended it. -/
def aDivTaxed : Activity := { aDiv with fee := mkRat 53 100, currency := "EUR", comment := "" }

/-- Witness for C9: the one non-empty-currency activity after the tax
step carries exactly the tax record's currency. -/
theorem c9_currency_only_by_amendment_witness :
    aDivTaxed ∈ ([aDiv] : List Activity) ∨ aDivTaxed.currency = rDivTax.currency :=
  c9_currency_only_by_amendment res1 "acc" [aDiv] rDivTax [aDivTaxed] (by decide)
    aDivTaxed (by decide) (by decide)

/-- C10 — a record whose ISIN field is empty never appends a new
activity: any successful step on it leaves the list length unchanged
(the dividend-tax and merge branches only amend in place; every other
path reaches the empty-ISIN `continue` before the push). -/
theorem c10_empty_isin_no_append (res : String → TickerResult) (acc : String)
    (acts : List Activity) (r : DeGiroRecord) (acts1 : List Activity)
    (hisin : r.isin = "") (h : processRecord res acc acts r = .ok acts1) :
    acts1.length = acts.length := by
  have hfin : ∀ d ot ns up, finishRecord res acc acts r d ot ns up = .ok acts := by
    intro d ot ns up
    simp [finishRecord, hisin]
  have hks : ∀ d tickers ot ns up acts2,
      koopStage res acc acts r d tickers ot ns up = .ok acts2 →
      acts2.length = acts.length := by
    intro d tickers ot ns up acts2 hk
    simp only [koopStage] at hk
    split at hk
    · split at hk
      · rename_i result hres
        rw [hk] at hres
        obtain ⟨last, a, hl, he, _⟩ := tradeCheck_shape _ _ _ _ _ _ _ hres
        rw [he]
        exact length_amend acts last a hl
      · rw [hfin _ _ _ _] at hk
        cases hk
        rfl
    · rw [hfin _ _ _ _] at hk
      cases hk
      rfl
  simp only [processRecord] at h
  split at h
  · cases h
    rfl
  · split at h
    · cases h
      rfl
    · split at h
      · simp at h
      · split at h
        · split at h
          · simp at h
          · rename_i last hlast
            simp only [Except.ok.injEq] at h
            rw [← h]
            exact length_amend acts last _ hlast
        · split at h
          · split at h
            · rename_i result hres
              rw [h] at hres
              obtain ⟨last, a, hl, he, _⟩ := tradeCheck_shape _ _ _ _ _ _ _ hres
              rw [he]
              exact length_amend acts last a hl
            · exact hks _ _ _ _ _ _ h
          · exact hks _ _ _ _ _ _ h

/-- Witness for C10: a fee-posting row with empty ISIN processed from the
empty list appends nothing. -/
theorem c10_empty_isin_no_append_witness :
    ([] : List Activity).length = ([] : List Activity).length :=
  c10_empty_isin_no_append res1 "acc" [] rNoIsin [] (by decide) (by decide)

/-! ### Branch behaviour lemmas -/

theorem reachesLookup_iff (r : DeGiroRecord) :
    reachesLookup r = true ↔
      noiseSkip (toLowerStr r.description) = false ∧
        irrelevantSkip (toLowerStr r.description) = false := by
  simp [reachesLookup]

/-- A record that reaches the lookup, is not a 401, is no dividend-tax
and no dividend line, matches neither trade pattern, has a non-empty
ISIN and matches the `transactiekosten` regex appends exactly the
pending fee entry (`orderType` left unassigned, quantity and unit price
0, fee from the amount, marker "transactiekosten"). -/
theorem processRecord_fee (res : String → TickerResult) (acc : String)
    (acts : List Activity) (r : DeGiroRecord)
    (hL : reachesLookup r = true)
    (h401 : (res r.isin).status401 = false)
    (hdb : strContains (toLowerStr r.description) "dividendbelasting" = false)
    (hdv : strContains (toLowerStr r.description) "dividend" = false)
    (hv : matchVerbNum verkoopPat (toLowerStr r.description).data = none)
    (hk : matchVerbNum koopPat (toLowerStr r.description).data = none)
    (hisin : 0 < r.isin.length)
    (ht : strContains (toLowerStr r.description) "transactiekosten" = true) :
    processRecord res acc acts r =
      .ok (acts ++ [mkPushed res acc r none 0 0 (absAmountOf r) "transactiekosten"]) := by
  obtain ⟨hn, hi⟩ := (reachesLookup_iff r).mp hL
  simp [processRecord, koopStage, finishRecord, hn, hi, h401, hdb, hdv, hv, hk, hisin, ht]

/-- A dividend record (no tax marker, no trade-pattern match, non-empty
ISIN, no `transactiekosten` marker) appends exactly the dividend
activity: kind dividend, quantity 1, unit price the absolute amount,
fee 0, empty marker. -/
theorem processRecord_dividend (res : String → TickerResult) (acc : String)
    (acts : List Activity) (r : DeGiroRecord)
    (hL : reachesLookup r = true)
    (h401 : (res r.isin).status401 = false)
    (hdb : strContains (toLowerStr r.description) "dividendbelasting" = false)
    (hdv : strContains (toLowerStr r.description) "dividend" = true)
    (hv : matchVerbNum verkoopPat (toLowerStr r.description).data = none)
    (hk : matchVerbNum koopPat (toLowerStr r.description).data = none)
    (hisin : 0 < r.isin.length)
    (ht : strContains (toLowerStr r.description) "transactiekosten" = false) :
    processRecord res acc acts r =
      .ok (acts ++ [mkPushed res acc r (some .dividend) 1 (absAmountOf r) 0 ""]) := by
  obtain ⟨hn, hi⟩ := (reachesLookup_iff r).mp hL
  simp [processRecord, koopStage, finishRecord, hn, hi, h401, hdb, hdv, hv, hk, hisin, ht]

/-- A dividend-tax record (description contains "dividendbelasting")
amends the last appended activity in place — fee := |amount|, currency
copied from this record, marker cleared — and appends nothing. -/
theorem processRecord_divtax (res : String → TickerResult) (acc : String)
    (acts : List Activity) (r : DeGiroRecord) (last : Activity)
    (hL : reachesLookup r = true)
    (h401 : (res r.isin).status401 = false)
    (hdb : strContains (toLowerStr r.description) "dividendbelasting" = true)
    (hlast : acts.getLast? = some last) :
    processRecord res acc acts r =
      .ok (acts.dropLast ++
        [{ last with fee := absAmountOf r, currency := r.currency, comment := "" }]) := by
  obtain ⟨hn, hi⟩ := (reachesLookup_iff r).mp hL
  simp [processRecord, hn, hi, h401, hdb, hlast]

/-- The (type, quantity, unit price) triple the two trade rules compute
for a record, with the sell pattern checked first exactly as in the
source: a `verkoop N` match gives a sell whose unit price is the
absolute amount divided by N and rounded to 3 decimals; otherwise a
`koop N` match gives a buy whose unit price is the raw absolute amount. -/
def tradeParams (r : DeGiroRecord) : Option (GhostfolioOrderType × ℕ × ℚ) :=
  match matchVerbNum verkoopPat (toLowerStr r.description).data with
  | some n => some (.sell, n, toFixed3 (qDiv (absAmountOf r) (n : ℚ)))
  | none =>
    match matchVerbNum koopPat (toLowerStr r.description).data with
    | some n => some (.buy, n, absAmountOf r)
    | none => none

/-- A trade record (sell or buy, as computed by `tradeParams`) whose
tail is a pending fee entry, with at least one lookup candidate, merges
in place: the pending entry is promoted with the trade's type, symbol,
quantity, unit price and currency, and its marker cleared; nothing is
appended. -/
theorem processRecord_merge (res : String → TickerResult) (acc : String)
    (acts : List Activity) (r : DeGiroRecord) (last : Activity)
    (ot : GhostfolioOrderType) (n : ℕ) (up : ℚ) (sym : String) (syms : List String)
    (hL : reachesLookup r = true)
    (h401 : (res r.isin).status401 = false)
    (hdb : strContains (toLowerStr r.description) "dividendbelasting" = false)
    (htp : tradeParams r = some (ot, n, up))
    (hlast : acts.getLast? = some last)
    (hpend : last.comment = "transactiekosten")
    (hsym : (res r.isin).items = sym :: syms) :
    processRecord res acc acts r =
      .ok (acts.dropLast ++ [mergeTail last ot sym (n : ℚ) up r.currency]) := by
  obtain ⟨hn, hi⟩ := (reachesLookup_iff r).mp hL
  simp only [tradeParams] at htp
  cases hv : matchVerbNum verkoopPat (toLowerStr r.description).data with
  | some m =>
    rw [hv] at htp
    simp only [Option.some.injEq, Prod.mk.injEq] at htp
    obtain ⟨hot, hnm, hup⟩ := htp
    subst hot hnm hup
    simp [processRecord, tradeCheck, hn, hi, h401, hdb, hv, hlast, hpend, hsym]
  | none =>
    rw [hv] at htp
    cases hk : matchVerbNum koopPat (toLowerStr r.description).data with
    | some m =>
      rw [hk] at htp
      simp only [Option.some.injEq, Prod.mk.injEq] at htp
      obtain ⟨hot, hnm, hup⟩ := htp
      subst hot hnm hup
      simp [processRecord, koopStage, tradeCheck, hn, hi, h401, hdb, hv, hk, hlast, hpend, hsym]
    | none =>
      rw [hk] at htp
      simp at htp

/-- C1 — a fee-posting record (non-empty ISIN, `transactiekosten`
marker) immediately followed by a matching buy or sell record yields
exactly one merged activity: the pending entry is promoted in place with
the trade's type, symbol, quantity, unit price and currency, its marker
cleared, and the fee carried over — the pair never contributes two
activities (the final list is `acts` plus a single entry). -/
theorem c1_fee_then_trade_merge (res : String → TickerResult) (acc : String)
    (acts : List Activity) (r1 r2 : DeGiroRecord)
    (ot : GhostfolioOrderType) (n : ℕ) (up : ℚ) (sym : String) (syms : List String)
    (h1L : reachesLookup r1 = true)
    (h1401 : (res r1.isin).status401 = false)
    (h1db : strContains (toLowerStr r1.description) "dividendbelasting" = false)
    (h1dv : strContains (toLowerStr r1.description) "dividend" = false)
    (h1v : matchVerbNum verkoopPat (toLowerStr r1.description).data = none)
    (h1k : matchVerbNum koopPat (toLowerStr r1.description).data = none)
    (h1isin : 0 < r1.isin.length)
    (h1t : strContains (toLowerStr r1.description) "transactiekosten" = true)
    (h2L : reachesLookup r2 = true)
    (h2401 : (res r2.isin).status401 = false)
    (h2db : strContains (toLowerStr r2.description) "dividendbelasting" = false)
    (h2tp : tradeParams r2 = some (ot, n, up))
    (h2sym : (res r2.isin).items = sym :: syms) :
    ∃ pending : Activity,
      processRecord res acc acts r1 = .ok (acts ++ [pending]) ∧
      pending.comment = "transactiekosten" ∧
      pending.fee = absAmountOf r1 ∧
      processRecord res acc (acts ++ [pending]) r2 =
        .ok (acts ++ [mergeTail pending ot sym (n : ℚ) up r2.currency]) ∧
      (mergeTail pending ot sym (n : ℚ) up r2.currency).fee = absAmountOf r1 ∧
      (mergeTail pending ot sym (n : ℚ) up r2.currency).comment = "" := by
  refine ⟨mkPushed res acc r1 none 0 0 (absAmountOf r1) "transactiekosten",
    processRecord_fee res acc acts r1 h1L h1401 h1db h1dv h1v h1k h1isin h1t,
    rfl, rfl, ?_, rfl, rfl⟩
  have hm := processRecord_merge res acc
    (acts ++ [mkPushed res acc r1 none 0 0 (absAmountOf r1) "transactiekosten"]) r2
    (mkPushed res acc r1 none 0 0 (absAmountOf r1) "transactiekosten")
    ot n up sym syms h2L h2401 h2db h2tp (List.getLast?_concat acts) rfl h2sym
  rwa [List.dropLast_concat] at hm

/-- Witness for C1: the fee record `rFee` then the buy record `rKoop`
from the empty list, with a one-candidate resolver. -/
theorem c1_fee_then_trade_merge_witness :
    ∃ pending : Activity,
      processRecord res1 "acc" [] rFee = .ok ([] ++ [pending]) ∧
      pending.comment = "transactiekosten" ∧
      pending.fee = absAmountOf rFee ∧
      processRecord res1 "acc" ([] ++ [pending]) rKoop =
        .ok ([] ++ [mergeTail pending .buy "VWRL.AS" ((10 : ℕ) : ℚ) 500 rKoop.currency]) ∧
      (mergeTail pending .buy "VWRL.AS" ((10 : ℕ) : ℚ) 500 rKoop.currency).fee = absAmountOf rFee ∧
      (mergeTail pending .buy "VWRL.AS" ((10 : ℕ) : ℚ) 500 rKoop.currency).comment = "" :=
  c1_fee_then_trade_merge res1 "acc" [] rFee rKoop .buy 10 500 "VWRL.AS" []
    (by decide) (by decide) (by decide) (by decide) (by decide) (by decide) (by decide)
    (by decide) (by decide) (by decide) (by decide) (by decide) (by decide)

/-- C2 — a dividend record immediately followed by its dividend-tax
record yields exactly one activity of kind dividend; the tax step sets
its fee to the absolute value of the tax amount, copies the tax record's
currency onto it and clears its marker, and appends nothing. -/
theorem c2_dividend_then_tax (res : String → TickerResult) (acc : String)
    (acts : List Activity) (r1 r2 : DeGiroRecord)
    (h1L : reachesLookup r1 = true)
    (h1401 : (res r1.isin).status401 = false)
    (h1db : strContains (toLowerStr r1.description) "dividendbelasting" = false)
    (h1dv : strContains (toLowerStr r1.description) "dividend" = true)
    (h1v : matchVerbNum verkoopPat (toLowerStr r1.description).data = none)
    (h1k : matchVerbNum koopPat (toLowerStr r1.description).data = none)
    (h1isin : 0 < r1.isin.length)
    (h1t : strContains (toLowerStr r1.description) "transactiekosten" = false)
    (h2L : reachesLookup r2 = true)
    (h2401 : (res r2.isin).status401 = false)
    (h2db : strContains (toLowerStr r2.description) "dividendbelasting" = true) :
    ∃ a : Activity,
      processRecord res acc acts r1 = .ok (acts ++ [a]) ∧
      a.type = some .dividend ∧ a.fee = 0 ∧
      processRecord res acc (acts ++ [a]) r2 =
        .ok (acts ++ [{ a with fee := absAmountOf r2, currency := r2.currency, comment := "" }]) := by
  refine ⟨mkPushed res acc r1 (some .dividend) 1 (absAmountOf r1) 0 "",
    processRecord_dividend res acc acts r1 h1L h1401 h1db h1dv h1v h1k h1isin h1t,
    rfl, rfl, ?_⟩
  have hm := processRecord_divtax res acc
    (acts ++ [mkPushed res acc r1 (some .dividend) 1 (absAmountOf r1) 0 ""]) r2
    (mkPushed res acc r1 (some .dividend) 1 (absAmountOf r1) 0 "")
    h2L h2401 h2db (List.getLast?_concat acts)
  rwa [List.dropLast_concat] at hm

/-- Witness for C2: `rDividend` then `rDivTax` from the empty list. -/
theorem c2_dividend_then_tax_witness :
    ∃ a : Activity,
      processRecord res1 "acc" [] rDividend = .ok ([] ++ [a]) ∧
      a.type = some .dividend ∧ a.fee = 0 ∧
      processRecord res1 "acc" ([] ++ [a]) rDivTax =
        .ok ([] ++
          [{ a with fee := absAmountOf rDivTax, currency := rDivTax.currency, comment := "" }]) :=
  c2_dividend_then_tax res1 "acc" [] rDividend rDivTax
    (by decide) (by decide) (by decide) (by decide) (by decide) (by decide) (by decide)
    (by decide) (by decide) (by decide) (by decide)

/-- C5 — if the run reaches a record whose symbol lookup answers 401,
the whole run aborts: the remaining records are never processed and the
output file is not written (`RunResult.aborted`), no matter how many
activities were already reconstructed. -/
theorem c5_unauthorized_aborts (res : String → TickerResult) (acc : String)
    (acts acts1 : List Activity) (ps : List DeGiroRecord) (r : DeGiroRecord)
    (rs : List DeGiroRecord)
    (hpre : processAll res acc acts ps = .written acts1)
    (hrel : reachesLookup r = true)
    (h401 : (res r.isin).status401 = true) :
    processAll res acc acts (ps ++ r :: rs) = .aborted := by
  rw [processAll_append, hpre]
  obtain ⟨hn, hi⟩ := (reachesLookup_iff r).mp hrel
  simp [processAll, processRecord, hn, hi, h401]

/-- A fee row on an instrument whose lookup answers 401 under `resMix`. -/
def rFee401 : DeGiroRecord := { rFee with isin := "IE401000000" }

/-- A resolver that answers 401 for exactly one ISIN. -/
def resMix : String → TickerResult :=
  fun s => if s = "IE401000000" then ⟨true, []⟩ else ⟨false, ["VWRL.AS"]⟩

/-- Witness for C5: one dividend is reconstructed, then the 5th-like
mid-run record `rFee401` hits a 401; the run is aborted and the
remaining record is never processed. -/
theorem c5_unauthorized_aborts_witness :
    processAll resMix "acc" [] ([rDividend] ++ rFee401 :: [rKoop]) = .aborted :=
  c5_unauthorized_aborts resMix "acc" []
    [mkPushed resMix "acc" rDividend (some .dividend) 1 (mkRat 1234 100) 0 ""]
    [rDividend] rFee401 [rKoop] (by decide) (by decide) (by decide)

/-- C3 — evidence of the code bug: the branches that reference the last
appended activity do not fail explicitly. A dividend-tax record whose
tail is a pending fee entry (marker "transactiekosten", not a dividend)
is silently folded into that entry — the step succeeds, overwriting the
pending entry's fee and currency and clearing its marker; and on an
empty activity list the tail access is an unguarded `undefined`
dereference (an uncaught TypeError), not an explicit reported error. -/
theorem c3_divtax_unguarded_tail :
    processRecord res1 "acc" [aPend] rDivTax =
      .ok [{ aPend with fee := mkRat 53 100, currency := "EUR", comment := "" }] ∧
    processRecord res1 "acc" [] rDivTax = .error .runtimeError := by decide

/-- C4 counterexample — the claim fails in the merge branches: a sell
record merging with a pending fee entry while the resolver returns zero
candidates does not record an empty symbol and continue; the code reads
`tickers.items[0].symbol` unguarded and the run crashes. -/
theorem c4_counterexample_merge_crash :
    processRecord res0 "acc" [aPend0] rVerkoop = .error .runtimeError := by decide

/-- C4 (amended) — a zero-candidate lookup is non-fatal only on the
standalone append path: any record that reaches the push (no tax marker,
no trade-pattern match, non-empty ISIN) is appended with its symbol
recorded as the empty string and processing continues. -/
theorem c4_amended_lookup_miss_standalone (res : String → TickerResult) (acc : String)
    (acts : List Activity) (r : DeGiroRecord)
    (hL : reachesLookup r = true)
    (h401 : (res r.isin).status401 = false)
    (hdb : strContains (toLowerStr r.description) "dividendbelasting" = false)
    (hv : matchVerbNum verkoopPat (toLowerStr r.description).data = none)
    (hk : matchVerbNum koopPat (toLowerStr r.description).data = none)
    (hisin : 0 < r.isin.length)
    (hmiss : (res r.isin).items = []) :
    ∃ a : Activity, processRecord res acc acts r = .ok (acts ++ [a]) ∧ a.symbol = "" := by
  obtain ⟨hn, hi⟩ := (reachesLookup_iff r).mp hL
  simp only [processRecord, koopStage, finishRecord, hn, hi, h401, hdb, hv, hk,
    Bool.false_eq_true, if_false, if_pos hisin]
  split
  · exact ⟨_, rfl, by simp [mkPushed, hmiss]⟩
  · exact ⟨_, rfl, by simp [mkPushed, hmiss]⟩

/-- Witness for the amended C4: the fee record under the zero-candidate
resolver appends a pending entry with empty symbol. -/
theorem c4_amended_lookup_miss_standalone_witness :
    ∃ a : Activity, processRecord res0 "acc" [] rFee = .ok ([] ++ [a]) ∧ a.symbol = "" :=
  c4_amended_lookup_miss_standalone res0 "acc" [] rFee
    (by decide) (by decide) (by decide) (by decide) (by decide) (by decide) (by decide)

/-- C6 counterexample — buy and sell do not share one unit-price policy:
with total amount 500.00 and 10 units, the merged buy activity's unit
price is the raw absolute amount (500) while the merged sell activity's
is the amount divided by the quantity and rounded (50), so the buy rule
follows neither "the same raw-amount choice" nor "the same
divide-and-round choice" as the sell rule. -/
theorem c6_counterexample_buy_sell_policy :
    processRecord res1 "acc" [aPend] rKoop =
      .ok [mergeTail aPend .buy "VWRL.AS" 10 500 "EUR"] ∧
    processRecord res1 "acc" [aPend] rVerkoop =
      .ok [mergeTail aPend .sell "VWRL.AS" 10 50 "EUR"] ∧
    absAmountOf rKoop = 500 ∧ absAmountOf rVerkoop = 500 ∧
    toFixed3 (qDiv (500 : ℚ) 10) = 50 ∧ (500 : ℚ) ≠ 50 := by decide

/-- C6 (amended) — the buy rule shares the sell rule's merge behaviour
and takes its quantity from the matched count, but its unit price is the
raw absolute amount, not the sell rule's amount-divided-by-quantity
rounded to 3 decimals: a koop-matching record merging with a pending fee
entry is promoted with quantity `n` and unit price `absAmountOf r`. -/
theorem c6_amended_buy_quantity_raw_price (res : String → TickerResult) (acc : String)
    (acts : List Activity) (r : DeGiroRecord) (last : Activity) (n : ℕ)
    (sym : String) (syms : List String)
    (hL : reachesLookup r = true)
    (h401 : (res r.isin).status401 = false)
    (hdb : strContains (toLowerStr r.description) "dividendbelasting" = false)
    (hnv : matchVerbNum verkoopPat (toLowerStr r.description).data = none)
    (hk : matchVerbNum koopPat (toLowerStr r.description).data = some n)
    (hlast : acts.getLast? = some last)
    (hpend : last.comment = "transactiekosten")
    (hsym : (res r.isin).items = sym :: syms) :
    processRecord res acc acts r =
      .ok (acts.dropLast ++ [mergeTail last .buy sym (n : ℚ) (absAmountOf r) r.currency]) := by
  have htp : tradeParams r = some (.buy, n, absAmountOf r) := by
    simp [tradeParams, hnv, hk]
  exact processRecord_merge res acc acts r last .buy n (absAmountOf r) sym syms
    hL h401 hdb htp hlast hpend hsym

/-- Witness for the amended C6: the concrete buy record `rKoop` merging
with the pending fee entry gets quantity 10 and raw unit price 500. -/
theorem c6_amended_buy_quantity_raw_price_witness :
    processRecord res1 "acc" [aPend] rKoop =
      .ok ([aPend].dropLast ++
        [mergeTail aPend .buy "VWRL.AS" ((10 : ℕ) : ℚ) (absAmountOf rKoop) rKoop.currency]) :=
  c6_amended_buy_quantity_raw_price res1 "acc" [aPend] rKoop aPend 10 "VWRL.AS" []
    (by decide) (by decide) (by decide) (by decide) (by decide) (by decide) (by decide) (by decide)

/-! ### Well-formed economic-event pairs (claim C7) -/

/-- A well-formed fee+trade pair: a fee-posting record (non-empty ISIN,
`transactiekosten` marker, no dividend or trade markers) followed by a
matching trade record on the same instrument whose description carries
no tax marker and whose identifier resolves to at least one candidate. -/
def FeeTradePair (res : String → TickerResult) (r1 r2 : DeGiroRecord) : Prop :=
  reachesLookup r1 = true ∧
  (res r1.isin).status401 = false ∧
  strContains (toLowerStr r1.description) "dividendbelasting" = false ∧
  strContains (toLowerStr r1.description) "dividend" = false ∧
  matchVerbNum verkoopPat (toLowerStr r1.description).data = none ∧
  matchVerbNum koopPat (toLowerStr r1.description).data = none ∧
  0 < r1.isin.length ∧
  strContains (toLowerStr r1.description) "transactiekosten" = true ∧
  reachesLookup r2 = true ∧
  (res r2.isin).status401 = false ∧
  strContains (toLowerStr r2.description) "dividendbelasting" = false ∧
  (tradeParams r2).isSome = true ∧
  r2.isin = r1.isin ∧
  (res r2.isin).items ≠ []

/-- A well-formed dividend+tax pair: a dividend record (non-empty ISIN,
no trade or fee markers) followed by its dividend-tax record. -/
def DivTaxPair (res : String → TickerResult) (r1 r2 : DeGiroRecord) : Prop :=
  reachesLookup r1 = true ∧
  (res r1.isin).status401 = false ∧
  strContains (toLowerStr r1.description) "dividendbelasting" = false ∧
  strContains (toLowerStr r1.description) "dividend" = true ∧
  matchVerbNum verkoopPat (toLowerStr r1.description).data = none ∧
  matchVerbNum koopPat (toLowerStr r1.description).data = none ∧
  0 < r1.isin.length ∧
  strContains (toLowerStr r1.description) "transactiekosten" = false ∧
  reachesLookup r2 = true ∧
  (res r2.isin).status401 = false ∧
  strContains (toLowerStr r2.description) "dividendbelasting" = true

/-- A well-formed economic-event pair: either shape. -/
def GoodPair (res : String → TickerResult) (p : DeGiroRecord × DeGiroRecord) : Prop :=
  FeeTradePair res p.1 p.2 ∨ DivTaxPair res p.1 p.2

instance (res : String → TickerResult) (r1 r2 : DeGiroRecord) :
    Decidable (FeeTradePair res r1 r2) := by
  unfold FeeTradePair
  infer_instance

instance (res : String → TickerResult) (r1 r2 : DeGiroRecord) :
    Decidable (DivTaxPair res r1 r2) := by
  unfold DivTaxPair
  infer_instance

instance (res : String → TickerResult) (p : DeGiroRecord × DeGiroRecord) :
    Decidable (GoodPair res p) := by
  unfold GoodPair
  infer_instance

/-- The record sequence obtained by laying the pairs out in order. -/
def flattenPairs : List (DeGiroRecord × DeGiroRecord) → List DeGiroRecord
  | [] => []
  | p :: ps => p.1 :: p.2 :: flattenPairs ps

/-- Processing one well-formed pair from any state appends exactly one
activity, whose symbol is the first lookup candidate of the pair's
identifier whenever one exists. -/
theorem goodPair_step (res : String → TickerResult) (acc : String)
    (r1 r2 : DeGiroRecord) (hp : GoodPair res (r1, r2)) (acts : List Activity) :
    ∃ (b : Activity) (acts1 : List Activity),
      processRecord res acc acts r1 = .ok acts1 ∧
      processRecord res acc acts1 r2 = .ok (acts ++ [b]) ∧
      ∀ s, (res r1.isin).items.head? = some s → b.symbol = s := by
  rcases hp with hf | hd
  · obtain ⟨h1L, h1401, h1db, h1dv, h1v, h1k, h1isin, h1t,
      h2L, h2401, h2db, htp, hiso, hne⟩ := hf
    obtain ⟨⟨ot, n, up⟩, htp'⟩ := Option.isSome_iff_exists.mp htp
    obtain ⟨sym, syms, hsym⟩ : ∃ sym syms, (res r2.isin).items = sym :: syms := by
      cases hx : (res r2.isin).items with
      | nil => exact absurd hx hne
      | cons a l => exact ⟨a, l, rfl⟩
    refine ⟨mergeTail (mkPushed res acc r1 none 0 0 (absAmountOf r1) "transactiekosten")
        ot sym (n : ℚ) up r2.currency,
      acts ++ [mkPushed res acc r1 none 0 0 (absAmountOf r1) "transactiekosten"],
      processRecord_fee res acc acts r1 h1L h1401 h1db h1dv h1v h1k h1isin h1t, ?_, ?_⟩
    · have hm := processRecord_merge res acc
        (acts ++ [mkPushed res acc r1 none 0 0 (absAmountOf r1) "transactiekosten"]) r2
        (mkPushed res acc r1 none 0 0 (absAmountOf r1) "transactiekosten")
        ot n up sym syms h2L h2401 h2db htp' (List.getLast?_concat acts) rfl hsym
      rwa [List.dropLast_concat] at hm
    · intro s hs
      rw [hiso] at hsym
      rw [hsym] at hs
      simp only [List.head?_cons, Option.some.injEq] at hs
      exact hs.symm ▸ rfl
  · obtain ⟨h1L, h1401, h1db, h1dv, h1v, h1k, h1isin, h1t, h2L, h2401, h2db⟩ := hd
    refine ⟨{ mkPushed res acc r1 (some .dividend) 1 (absAmountOf r1) 0 "" with
        fee := absAmountOf r2, currency := r2.currency, comment := "" },
      acts ++ [mkPushed res acc r1 (some .dividend) 1 (absAmountOf r1) 0 ""],
      processRecord_dividend res acc acts r1 h1L h1401 h1db h1dv h1v h1k h1isin h1t, ?_, ?_⟩
    · have hm := processRecord_divtax res acc
        (acts ++ [mkPushed res acc r1 (some .dividend) 1 (absAmountOf r1) 0 ""]) r2
        (mkPushed res acc r1 (some .dividend) 1 (absAmountOf r1) 0 "")
        h2L h2401 h2db (List.getLast?_concat acts)
      rwa [List.dropLast_concat] at hm
    · intro s hs
      show ((res r1.isin).items).headD "" = s
      rw [List.headD_eq_head?_getD, hs]
      rfl

/-- C7 counterexample — one well-formed fee+trade pair (fee posting then
matching buy, same non-empty ISIN) whose identifier yields zero lookup
candidates does not produce exactly one activity: the merge branch
dereferences the missing first candidate, the run crashes, and no
activities are produced at all. -/
theorem c7_counterexample_pair_crash :
    processAll res0 "acc" [] (flattenPairs [(rFee, rKoop)]) = .crashed := by decide

/-- C7 (amended) — N well-formed pairs, each fee+trade pair's identifier
resolving to at least one candidate, produce exactly N activities; the
i-th activity's symbol equals the first lookup candidate of the i-th
pair's identifier whenever one exists (hence non-empty whenever the
identifier maps to a known ticker). -/
theorem c7_amended_pairs_roundtrip (res : String → TickerResult) (acc : String)
    (ps : List (DeGiroRecord × DeGiroRecord)) (hps : ∀ p ∈ ps, GoodPair res p)
    (acts : List Activity) :
    ∃ newActs : List Activity,
      processAll res acc acts (flattenPairs ps) = .written (acts ++ newActs) ∧
      newActs.length = ps.length ∧
      ∀ i (h1 : i < ps.length) (h2 : i < newActs.length) (s : String),
        (res (ps.get ⟨i, h1⟩).1.isin).items.head? = some s →
        (newActs.get ⟨i, h2⟩).symbol = s := by
  induction ps generalizing acts with
  | nil =>
    refine ⟨[], by simp [flattenPairs, processAll], rfl, ?_⟩
    intro i h1
    exact absurd h1 (by simp)
  | cons p rest ih =>
    obtain ⟨b, acts1, hs1, hs2, hbsym⟩ :=
      goodPair_step res acc p.1 p.2 (hps p (List.mem_cons_self p rest)) acts
    obtain ⟨newActs, hrun, hlen, hsyms⟩ :=
      ih (fun q hq => hps q (List.mem_cons_of_mem p hq)) (acts ++ [b])
    refine ⟨b :: newActs, ?_, by simp [hlen], ?_⟩
    · have : flattenPairs (p :: rest) = p.1 :: p.2 :: flattenPairs rest := rfl
      rw [this]
      simp only [processAll, hs1, hs2]
      rw [hrun]
      simp
    · intro i h1 h2 s hs
      cases i with
      | zero => exact hbsym s hs
      | succ j =>
        exact hsyms j (by simpa using h1) (by simpa using h2) s hs

/-- Witness for the amended C7: two pairs (fee+buy, dividend+tax) under
the one-candidate resolver produce exactly two activities. -/
theorem c7_amended_pairs_roundtrip_witness :
    ∃ newActs : List Activity,
      processAll res1 "acc" [] (flattenPairs [(rFee, rKoop), (rDividend, rDivTax)]) =
        .written ([] ++ newActs) ∧
      newActs.length = ([(rFee, rKoop), (rDividend, rDivTax)] :
        List (DeGiroRecord × DeGiroRecord)).length ∧
      ∀ i (h1 : i < ([(rFee, rKoop), (rDividend, rDivTax)] :
            List (DeGiroRecord × DeGiroRecord)).length)
        (h2 : i < newActs.length) (s : String),
        (res1 (([(rFee, rKoop), (rDividend, rDivTax)] :
          List (DeGiroRecord × DeGiroRecord)).get ⟨i, h1⟩).1.isin).items.head? = some s →
        (newActs.get ⟨i, h2⟩).symbol = s :=
  c7_amended_pairs_roundtrip res1 "acc" [(rFee, rKoop), (rDividend, rDivTax)] (by decide) []
